import Mathlib

/-!
Shallow embedding of the bytecode similarity pipeline
(`pipeline/similarity/{opcodes,normalize,fingerprint,main}.py`).

Bytes are modelled as `Nat` (always < 256 when produced by hex decoding),
Python `str` as Lean `String`, Python lists as `List`, Python dicts
(insertion ordered) as association lists `List (key × value)`, Python
floats as exact rationals `ℚ` (the spec promises no precision guarantees
beyond ordinary arithmetic and every claim below is insensitive to
float rounding), and functions that can raise as `Except`/`Option`.
All recursive definitions use structural recursion (with an explicit
fuel argument where the source loop advances by a computed stride), so
every definition evaluates inside the kernel.
-/

/-- Decimal digit character, models the digits of Python `str(n)`. -/
def decDigit (n : Nat) : Char := Char.ofNat (48 + n % 10)

/-- Fuelled decimal digit list of a natural number, most significant first.
The fuel only bounds the recursion depth; `fuel ≥ n + 1` is always enough. -/
def decDigitsF : Nat → Nat → List Char
  | 0, _ => []
  | fuel + 1, n =>
    if n < 10 then [decDigit n]
    else decDigitsF fuel (n / 10) ++ [decDigit (n % 10)]

/-- Decimal representation of a natural number, models Python `str(n)`
for `n ≥ 0`. -/
def decRepr (n : Nat) : String := String.mk (decDigitsF (n + 1) n)

/-- Uppercase hexadecimal digit character. -/
def hexDigitUpper (n : Nat) : Char :=
  if n < 10 then Char.ofNat (48 + n) else Char.ofNat (55 + n)

/-- Two-digit uppercase hexadecimal rendering of a byte, models Python
`f"{byte:02X}"` for `0 ≤ byte < 256`. -/
def byteToHex (b : Nat) : String :=
  String.mk [hexDigitUpper (b / 16 % 16), hexDigitUpper (b % 16)]

/-- Opcode table from `opcodes.py`: byte value to (mnemonic, operand length).
Descriptions are dropped; the `PUSH1..PUSH32`, `DUP1..DUP16` and
`SWAP1..SWAP16` families mirror the three dict comprehensions. -/
def OPCODES (b : Nat) : Option (String × Nat) :=
  if b = 0x00 then some ("STOP", 0)
  else if b = 0x01 then some ("ADD", 0)
  else if b = 0x02 then some ("MUL", 0)
  else if b = 0x03 then some ("SUB", 0)
  else if b = 0x04 then some ("DIV", 0)
  else if b = 0x05 then some ("SDIV", 0)
  else if b = 0x06 then some ("MOD", 0)
  else if b = 0x07 then some ("SMOD", 0)
  else if b = 0x08 then some ("ADDMOD", 0)
  else if b = 0x09 then some ("MULMOD", 0)
  else if b = 0x0A then some ("EXP", 0)
  else if b = 0x0B then some ("SIGNEXTEND", 0)
  else if b = 0x10 then some ("LT", 0)
  else if b = 0x11 then some ("GT", 0)
  else if b = 0x12 then some ("SLT", 0)
  else if b = 0x13 then some ("SGT", 0)
  else if b = 0x14 then some ("EQ", 0)
  else if b = 0x15 then some ("ISZERO", 0)
  else if b = 0x16 then some ("AND", 0)
  else if b = 0x17 then some ("OR", 0)
  else if b = 0x18 then some ("XOR", 0)
  else if b = 0x19 then some ("NOT", 0)
  else if b = 0x1A then some ("BYTE", 0)
  else if b = 0x1B then some ("SHL", 0)
  else if b = 0x1C then some ("SHR", 0)
  else if b = 0x1D then some ("SAR", 0)
  else if b = 0x20 then some ("SHA3", 0)
  else if b = 0x30 then some ("ADDRESS", 0)
  else if b = 0x31 then some ("BALANCE", 0)
  else if b = 0x32 then some ("ORIGIN", 0)
  else if b = 0x33 then some ("CALLER", 0)
  else if b = 0x34 then some ("CALLVALUE", 0)
  else if b = 0x35 then some ("CALLDATALOAD", 0)
  else if b = 0x36 then some ("CALLDATASIZE", 0)
  else if b = 0x37 then some ("CALLDATACOPY", 0)
  else if b = 0x38 then some ("CODESIZE", 0)
  else if b = 0x39 then some ("CODECOPY", 0)
  else if b = 0x3A then some ("GASPRICE", 0)
  else if b = 0x3B then some ("EXTCODESIZE", 0)
  else if b = 0x3C then some ("EXTCODECOPY", 0)
  else if b = 0x3D then some ("RETURNDATASIZE", 0)
  else if b = 0x3E then some ("RETURNDATACOPY", 0)
  else if b = 0x3F then some ("EXTCODEHASH", 0)
  else if b = 0x40 then some ("BLOCKHASH", 0)
  else if b = 0x41 then some ("COINBASE", 0)
  else if b = 0x42 then some ("TIMESTAMP", 0)
  else if b = 0x43 then some ("NUMBER", 0)
  else if b = 0x44 then some ("DIFFICULTY", 0)
  else if b = 0x45 then some ("GASLIMIT", 0)
  else if b = 0x46 then some ("CHAINID", 0)
  else if b = 0x47 then some ("SELFBALANCE", 0)
  else if b = 0x50 then some ("POP", 0)
  else if b = 0x51 then some ("MLOAD", 0)
  else if b = 0x52 then some ("MSTORE", 0)
  else if b = 0x53 then some ("MSTORE8", 0)
  else if b = 0x54 then some ("SLOAD", 0)
  else if b = 0x55 then some ("SSTORE", 0)
  else if b = 0x56 then some ("JUMP", 0)
  else if b = 0x57 then some ("JUMPI", 0)
  else if b = 0x58 then some ("PC", 0)
  else if b = 0x59 then some ("MSIZE", 0)
  else if b = 0x5A then some ("GAS", 0)
  else if b = 0x5B then some ("JUMPDEST", 0)
  else if 0x60 ≤ b ∧ b ≤ 0x7F then some ("PUSH" ++ decRepr (b - 0x5F), b - 0x5F)
  else if 0x80 ≤ b ∧ b ≤ 0x8F then some ("DUP" ++ decRepr (b - 0x7F), 0)
  else if 0x90 ≤ b ∧ b ≤ 0x9F then some ("SWAP" ++ decRepr (b - 0x8F), 0)
  else if b = 0xA0 then some ("LOG0", 0)
  else if b = 0xA1 then some ("LOG1", 0)
  else if b = 0xA2 then some ("LOG2", 0)
  else if b = 0xA3 then some ("LOG3", 0)
  else if b = 0xA4 then some ("LOG4", 0)
  else if b = 0xF0 then some ("CREATE", 0)
  else if b = 0xF1 then some ("CALL", 0)
  else if b = 0xF2 then some ("CALLCODE", 0)
  else if b = 0xF3 then some ("RETURN", 0)
  else if b = 0xF4 then some ("DELEGATECALL", 0)
  else if b = 0xF5 then some ("CREATE2", 0)
  else if b = 0xFA then some ("STATICCALL", 0)
  else if b = 0xFD then some ("REVERT", 0)
  else if b = 0xFE then some ("INVALID", 0)
  else if b = 0xFF then some ("SELFDESTRUCT", 0)
  else none

/-- `get_opcode` from `opcodes.py`: mnemonic and operand byte count for a
byte, with a synthetic `UNKNOWN_<hex>` mnemonic (zero operand length) for
bytes outside the table. -/
def get_opcode (b : Nat) : String × Nat :=
  match OPCODES b with
  | some (mnemonic, push_bytes) => (mnemonic, push_bytes)
  | none => ("UNKNOWN_" ++ byteToHex b, 0)

/-- `is_push_opcode` from `opcodes.py`: membership in
`PUSH_OPCODES = {"PUSH1", ..., "PUSH32"}`. -/
def is_push_opcode (mnemonic : String) : Bool :=
  (List.range 32).any (fun i => mnemonic == "PUSH" ++ decRepr (i + 1))

/-- `normalize_push_opcode` from `normalize.py`: collapse every push-family
mnemonic to the single canonical mnemonic `"PUSH"`. -/
def normalize_push_opcode (mnemonic : String) : String :=
  if is_push_opcode mnemonic then "PUSH" else mnemonic

/-- `strip_0x_prefix` from `normalize.py`: drop a leading `0x` or `0X`. -/
def strip_0x_prefix (bytecode : String) : String :=
  match String.data bytecode with
  | '0' :: 'x' :: rest => String.mk rest
  | '0' :: 'X' :: rest => String.mk rest
  | _ => bytecode

/-- Value of one hexadecimal digit character, models the digit handling of
Python `bytes.fromhex`. -/
def hexDigitValue (c : Char) : Option Nat :=
  if '0' ≤ c ∧ c ≤ '9' then some (c.toNat - 48)
  else if 'a' ≤ c ∧ c ≤ 'f' then some (c.toNat - 87)
  else if 'A' ≤ c ∧ c ≤ 'F' then some (c.toNat - 55)
  else none

/-- ASCII whitespace as skipped by Python `bytes.fromhex`. -/
def isAsciiSpace (c : Char) : Bool :=
  c = ' ' ∨ c = Char.ofNat 9 ∨ c = Char.ofNat 10 ∨ c = Char.ofNat 11 ∨
    c = Char.ofNat 12 ∨ c = Char.ofNat 13

/-- Python `bytes.fromhex`: pairs of hexadecimal digits, ASCII whitespace
between byte pairs skipped, anything else a `ValueError` (`none`). -/
def bytesFromHex : List Char → Option (List Nat)
  | [] => some []
  | c :: cs =>
    if isAsciiSpace c then bytesFromHex cs
    else
      match hexDigitValue c, cs with
      | some hi, c2 :: cs2 =>
        (match hexDigitValue c2, bytesFromHex cs2 with
         | some lo, some rest => some ((16 * hi + lo) :: rest)
         | _, _ => none)
      | _, _ => none

/-- The byte string `b"bzzr"`. -/
def bzzrMarker : List Nat := [0x62, 0x7A, 0x7A, 0x72]

/-- Python `pattern in b`: does `pat` occur contiguously inside `l`? -/
def containsBytes (pat l : List Nat) : Bool :=
  (List.range (l.length + 1)).any (fun i => pat.isPrefixOf (l.drop i))

/-- Python `b.rfind(pat)`: the greatest index at which `pat` occurs in `l`
(`none` models the -1 returned when absent). -/
def rfindBytes (pat l : List Nat) : Option Nat :=
  ((List.range (l.length + 1)).filter (fun i => pat.isPrefixOf (l.drop i))).getLast?

/-- `detect_metadata_offset` from `normalize.py`: best-effort detection of a
trailing Solidity metadata block.  First the CBOR form (length in the last
two bytes, a `0xa1`/`0xa2`/`0xa3` marker at the implied start), then the
older `bzzr` marker searched in the last 64 bytes. -/
def detect_metadata_offset (bytecode_bytes : List Nat) : Option Nat :=
  if bytecode_bytes.length < 43 then none
  else
    let metadata_length :=
      256 * bytecode_bytes.getD (bytecode_bytes.length - 2) 0 +
        bytecode_bytes.getD (bytecode_bytes.length - 1) 0
    let cbor : Option Nat :=
      if 32 ≤ metadata_length ∧ metadata_length ≤ 100 ∧
          metadata_length < bytecode_bytes.length then
        let potential_start := bytecode_bytes.length - metadata_length - 2
        if potential_start > 0 then
          let marker := bytecode_bytes.getD potential_start 0
          if marker = 0xA1 ∨ marker = 0xA2 ∨ marker = 0xA3 then
            some potential_start
          else none
        else none
      else none
    match cbor with
    | some off => some off
    | none =>
      if containsBytes bzzrMarker
          (bytecode_bytes.drop (bytecode_bytes.length - 64)) then
        match rfindBytes bzzrMarker bytecode_bytes with
        | some idx => if idx > 2 then some (idx - 2) else none
        | none => none
      else none

/-- `NormalizedBytecode` from `normalize.py`. -/
structure NormalizedBytecode where
  opcodes : List String
  raw_opcodes : List String
  opcode_count : Nat
  original_size : Nat
  has_metadata : Bool
  metadata_offset : Option Nat
  parse_errors : List String
deriving DecidableEq, Repr

/-- Fuelled form of the decode loop of `parse_bytecode` (`normalize.py`
lines 190-208).  Returns (raw stream, canonical stream, errors).  The fuel
only bounds the iteration count; each iteration advances `position` by at
least one, so `code_end - position` iterations always suffice. -/
def parseLoopF : Nat → List Nat → Nat → Nat →
    List String × List String × List String
  | 0, _, _, _ => ([], [], [])
  | fuel + 1, bytecode_bytes, code_end, position =>
    if position < code_end then
      let byte := bytecode_bytes.getD position 0
      let mo := get_opcode byte
      let position2 := position + 1 + mo.2
      if position2 > code_end ∧ 0 < mo.2 then
        ([mo.1], [normalize_push_opcode mo.1],
          ["PUSH operand extends past code end at position " ++ decRepr position])
      else
        let rest := parseLoopF fuel bytecode_bytes code_end position2
        (mo.1 :: rest.1, normalize_push_opcode mo.1 :: rest.2.1, rest.2.2)
    else ([], [], [])

/-- The decode loop of `parse_bytecode`, with the fuel instantiated to the
always-sufficient bound. -/
def parseLoop (bytecode_bytes : List Nat) (code_end position : Nat) :
    List String × List String × List String :=
  parseLoopF (code_end - position) bytecode_bytes code_end position

/-- `parse_bytecode` from `normalize.py`.  The Python `strip_metadata`
parameter defaults to `True`; callers here pass it explicitly.  The message
of the invalid-hex branch drops the Python exception text. -/
def parse_bytecode (bytecode : String) (strip_metadata : Bool) :
    NormalizedBytecode :=
  let hex_str := strip_0x_prefix bytecode
  if hex_str = "" then
    ⟨[], [], 0, 0, false, none, ["Empty bytecode"]⟩
  else
    match bytesFromHex hex_str.data with
    | none => ⟨[], [], 0, hex_str.length / 2, false, none, ["Invalid hex"]⟩
    | some bytecode_bytes =>
      let original_size := bytecode_bytes.length
      let metadata_offset :=
        if strip_metadata then detect_metadata_offset bytecode_bytes else none
      let has_metadata := metadata_offset.isSome
      let code_end := metadata_offset.getD bytecode_bytes.length
      let r := parseLoop bytecode_bytes code_end 0
      ⟨r.2.1, r.1, r.2.1.length, original_size, has_metadata,
        metadata_offset, r.2.2⟩

/-- `get_opcode_sequence` from `normalize.py`: the canonical stream of a
default (`strip_metadata=True`) parse. -/
def get_opcode_sequence (bytecode : String) : List String :=
  (parse_bytecode bytecode true).opcodes

/-- Formalization of the hypothesis of the push-collapse claim, with fuel
(`fuel ≥ l1.length` always suffices): the two byte strings decode to the
same opcode byte at every instruction position, each instruction's declared
operand bytes are fully present on both sides, and only those operand bytes
may differ. -/
def pushEquivF : Nat → List Nat → List Nat → Bool
  | _, [], [] => true
  | fuel + 1, b1 :: r1, b2 :: r2 =>
    b1 = b2 && (get_opcode b1).2 ≤ r1.length && (get_opcode b1).2 ≤ r2.length &&
      pushEquivF fuel (r1.drop (get_opcode b1).2) (r2.drop (get_opcode b1).2)
  | _, _, _ => false

/-- Two byte strings are push-equivalent: identical instruction skeleton,
differing at most in push operand bytes. -/
def pushEquivB (l1 l2 : List Nat) : Bool := pushEquivF l1.length l1 l2

/-- One `Counter` update of `generate_ngrams` (`fingerprint.py`): increment
the count of `k` in an insertion-ordered association list. -/
def bump (m : List (String × Nat)) (k : String) : List (String × Nat) :=
  match m with
  | [] => [(k, 1)]
  | (k', v) :: rest => if k' = k then (k', v + 1) :: rest else (k', v) :: bump rest k

/-- `generate_ngrams` from `fingerprint.py`: the multiset of contiguous
length-`n` windows of the stream, each window joined with `"|"`, counted in
an insertion-ordered map. -/
def generate_ngrams (opcodes : List String) (n : Nat) : List (String × Nat) :=
  if opcodes.length < n then []
  else
    (List.range (opcodes.length - n + 1)).foldl
      (fun m i => bump m (String.intercalate "|" ((opcodes.drop i).take n))) []

/-- Comparison used by Python `sorted(ngrams.items())`: lexicographic order
on (string, count) pairs. -/
def pairLeB (a b : String × Nat) : Bool :=
  decide (a.1 < b.1 ∨ (a.1 = b.1 ∧ a.2 ≤ b.2))

/-- Lowercase hexadecimal digit character. -/
def hexDigitLower (n : Nat) : Char :=
  if n < 10 then Char.ofNat (48 + n) else Char.ofNat (87 + n)

/-- Two-digit lowercase hexadecimal rendering of a byte. -/
def byteToHexLower (b : Nat) : String :=
  String.mk [hexDigitLower (b / 16 % 16), hexDigitLower (b % 16)]

/-- Four-digit lowercase hexadecimal rendering, as in the `\uXXXX` escapes
of Python `json.dumps`. -/
def uHex4 (n : Nat) : String :=
  String.mk [hexDigitLower (n / 4096 % 16), hexDigitLower (n / 256 % 16),
    hexDigitLower (n / 16 % 16), hexDigitLower (n % 16)]

/-- JSON escaping of one character, as Python `json.dumps` (default
`ensure_ascii=True`) renders string contents. -/
def jsonEscapeChar (c : Char) : String :=
  if c = '"' then "\\\""
  else if c = '\\' then "\\\\"
  else if c = Char.ofNat 8 then "\\b"
  else if c = Char.ofNat 9 then "\\t"
  else if c = Char.ofNat 10 then "\\n"
  else if c = Char.ofNat 12 then "\\f"
  else if c = Char.ofNat 13 then "\\r"
  else if c.toNat < 32 then "\\u" ++ uHex4 c.toNat
  else if c.toNat < 127 then String.mk [c]
  else if c.toNat < 65536 then "\\u" ++ uHex4 c.toNat
  else
    "\\u" ++ uHex4 (55296 + (c.toNat - 65536) / 1024) ++
      "\\u" ++ uHex4 (56320 + (c.toNat - 65536) % 1024)

/-- JSON rendering of a string literal as Python `json.dumps` writes it. -/
def jsonString (s : String) : String :=
  "\"" ++ String.join (s.data.map jsonEscapeChar) ++ "\""

/-- Canonical serialization used by `hash_ngrams`:
`json.dumps(sorted_items, separators=(",", ":"))` where each item is a
(string, count) pair rendered as a two-element JSON array. -/
def jsonSerialize (items : List (String × Nat)) : String :=
  "[" ++ String.intercalate ","
      (items.map (fun p => "[" ++ jsonString p.1 ++ "," ++ decRepr p.2 ++ "]")) ++
    "]"

/-- UTF-8 encoding of a character, models Python `str.encode()`. -/
def utf8Char (c : Char) : List Nat :=
  let n := c.toNat
  if n < 128 then [n]
  else if n < 2048 then [192 + n / 64, 128 + n % 64]
  else if n < 65536 then [224 + n / 4096, 128 + n / 64 % 64, 128 + n % 64]
  else [240 + n / 262144, 128 + n / 4096 % 64, 128 + n / 64 % 64, 128 + n % 64]

/-- UTF-8 encoding of a string as a byte list. -/
def utf8Encode (s : String) : List Nat := s.data.foldr (fun c acc => utf8Char c ++ acc) []

/-- Truncation to a 32-bit word. -/
def w32 (n : Nat) : Nat := n % 4294967296

/-- Right rotation of a 32-bit word by `r` bits. -/
def rotr32 (x r : Nat) : Nat := x / 2 ^ r + x % 2 ^ r * 2 ^ (32 - r)

/-- SHA-256 round constants (FIPS 180-4), written in decimal. -/
def K256 : List Nat :=
  [1116352408, 1899447441, 3049323471, 3921009573, 961987163,
   1508970993, 2453635748, 2870763221, 3624381080, 310598401,
   607225278, 1426881987, 1925078388, 2162078206, 2614888103,
   3248222580, 3835390401, 4022224774, 264347078, 604807628,
   770255983, 1249150122, 1555081692, 1996064986, 2554220882,
   2821834349, 2952996808, 3210313671, 3336571891, 3584528711,
   113926993, 338241895, 666307205, 773529912, 1294757372,
   1396182291, 1695183700, 1986661051, 2177026350, 2456956037,
   2730485921, 2820302411, 3259730800, 3345764771, 3516065817,
   3600352804, 4094571909, 275423344, 430227734, 506948616,
   659060556, 883997877, 958139571, 1322822218, 1537002063,
   1747873779, 1955562222, 2024104815, 2227730452, 2361852424,
   2428436474, 2756734187, 3204031479, 3329325298]

/-- SHA-256 initial hash state (FIPS 180-4), written in decimal. -/
def H256 : List Nat :=
  [1779033703, 3144134277, 1013904242, 2773480762,
   1359893119, 2600822924, 528734635, 1541459225]

/-- Big-endian bytes of a 64-bit quantity. -/
def be64 (n : Nat) : List Nat :=
  (List.range 8).map (fun i => n / 2 ^ (8 * (7 - i)) % 256)

/-- Big-endian bytes of a 32-bit word. -/
def be32 (n : Nat) : List Nat :=
  (List.range 4).map (fun i => n / 2 ^ (8 * (3 - i)) % 256)

/-- SHA-256 message padding: append `0x80`, zeros to 56 mod 64, and the
bit length as 8 big-endian bytes. -/
def sha256pad (msg : List Nat) : List Nat :=
  msg ++ 0x80 :: List.replicate ((119 - msg.length % 64) % 64) 0 ++
    be64 (8 * msg.length)

/-- Split a byte list into 64-byte blocks (fuelled; `fuel ≥ length`
suffices). -/
def toBlocksF : Nat → List Nat → List (List Nat)
  | 0, _ => []
  | _, [] => []
  | fuel + 1, l => l.take 64 :: toBlocksF fuel (l.drop 64)

/-- Combine each aligned group of 4 bytes into a big-endian 32-bit word. -/
def bytesToWords : List Nat → List Nat
  | b0 :: b1 :: b2 :: b3 :: rest =>
    (((b0 * 256 + b1) * 256 + b2) * 256 + b3) :: bytesToWords rest
  | _ => []

/-- The 32-bit complement. -/
def not32 (x : Nat) : Nat := 4294967295 - x

/-- SHA-256 small sigma 0. -/
def ssig0 (x : Nat) : Nat := Nat.xor (Nat.xor (rotr32 x 7) (rotr32 x 18)) (x / 8)

/-- SHA-256 small sigma 1. -/
def ssig1 (x : Nat) : Nat := Nat.xor (Nat.xor (rotr32 x 17) (rotr32 x 19)) (x / 1024)

/-- SHA-256 big sigma 0. -/
def bsig0 (x : Nat) : Nat := Nat.xor (Nat.xor (rotr32 x 2) (rotr32 x 13)) (rotr32 x 22)

/-- SHA-256 big sigma 1. -/
def bsig1 (x : Nat) : Nat := Nat.xor (Nat.xor (rotr32 x 6) (rotr32 x 11)) (rotr32 x 25)

/-- SHA-256 choose function. -/
def chFn (x y z : Nat) : Nat := Nat.xor (Nat.land x y) (Nat.land (not32 x) z)

/-- SHA-256 majority function. -/
def majFn (x y z : Nat) : Nat :=
  Nat.xor (Nat.xor (Nat.land x y) (Nat.land x z)) (Nat.land y z)

/-- Extend a 16-word message schedule by `k` further words. -/
def extendSchedule : List Nat → Nat → List Nat
  | ws, 0 => ws
  | ws, k + 1 =>
    let i := ws.length
    extendSchedule
      (ws ++ [w32 (ws.getD (i - 16) 0 + ssig0 (ws.getD (i - 15) 0) +
        ws.getD (i - 7) 0 + ssig1 (ws.getD (i - 2) 0))]) k

/-- One SHA-256 compression round on the 8-word working state. -/
def compressRound (st : List Nat) (kw : Nat × Nat) : List Nat :=
  match st with
  | [a, b, c, d, e, f, g, h] =>
    let t1 := w32 (h + bsig1 e + chFn e f g + kw.1 + kw.2)
    let t2 := w32 (bsig0 a + majFn a b c)
    [w32 (t1 + t2), a, b, c, w32 (d + t1), e, f, g]
  | other => other

/-- SHA-256 compression of one 64-byte block into the hash state. -/
def compressBlock (h : List Nat) (block : List Nat) : List Nat :=
  let ws := extendSchedule (bytesToWords block) 48
  let st := (K256.zip ws).foldl compressRound h
  (h.zip st).map (fun p => w32 (p.1 + p.2))

/-- SHA-256 digest of a byte list, as bytes. -/
def sha256bytes (msg : List Nat) : List Nat :=
  let hs := (toBlocksF (msg.length + 9) (sha256pad msg)).foldl compressBlock H256
  hs.foldr (fun wrd acc => be32 wrd ++ acc) []

/-- Models Python `hashlib.sha256(data).hexdigest()`. -/
def sha256hexDigest (msg : List Nat) : String :=
  String.join ((sha256bytes msg).map byteToHexLower)

/-- Take the first `n` characters of a string, models Python `s[:n]`. -/
def strTake (s : String) (n : Nat) : String := String.mk (s.data.take n)

/-- `hash_ngrams` from `fingerprint.py`: `"empty"` for an empty multiset,
otherwise the first 16 hex characters of the SHA-256 of the canonical JSON
serialization of the lexicographically sorted (ngram, count) pairs. -/
def hash_ngrams (ngrams : List (String × Nat)) : String :=
  if ngrams = [] then "empty"
  else
    let sorted_items := ngrams.mergeSort pairLeB
    let canonical := jsonSerialize sorted_items
    strTake (sha256hexDigest (utf8Encode canonical)) 16

/-- `CONTROL_FLOW_OPCODES` from `opcodes.py` (as a list standing for the
Python set). -/
def CONTROL_FLOW_OPCODES : List String :=
  ["JUMP", "JUMPI", "JUMPDEST", "CALL", "CALLCODE", "DELEGATECALL",
   "STATICCALL", "RETURN", "REVERT", "STOP", "SELFDESTRUCT", "INVALID"]

/-- `STORAGE_OPCODES` from `opcodes.py`. -/
def STORAGE_OPCODES : List String := ["SLOAD", "SSTORE"]

/-- `CALL_OPCODES` from `opcodes.py`. -/
def CALL_OPCODES : List String :=
  ["CALL", "CALLCODE", "DELEGATECALL", "STATICCALL", "CREATE", "CREATE2"]

/-- `count_opcodes_by_type` from `fingerprint.py`: how many opcodes of the
stream lie in the target set. -/
def count_opcodes_by_type (opcodes : List String) (target_set : List String) : Nat :=
  opcodes.countP (fun op => target_set.contains op)

/-- The scan of `detect_loops` (`fingerprint.py`): state is (count so far,
inside a potential loop, distance from the last `JUMPDEST`). -/
def detectLoopsGo : List String → Nat → Bool → Nat → Nat
  | [], loop_count, _, _ => loop_count
  | op :: rest, loop_count, in_potential_loop, distance =>
    if op = "JUMPDEST" then detectLoopsGo rest loop_count true 0
    else if op = "JUMPI" ∧ in_potential_loop then
      detectLoopsGo rest (if distance < 50 then loop_count + 1 else loop_count)
        false distance
    else detectLoopsGo rest loop_count in_potential_loop (distance + 1)

/-- `detect_loops` from `fingerprint.py`: heuristic count of
`JUMPDEST ... JUMPI` windows shorter than 50 instructions. -/
def detect_loops (opcodes : List String) : Nat := detectLoopsGo opcodes 0 false 0

/-- Models Python `int(x * 1000)` for the nonnegative ratio fields of the
signatures (`int` truncates toward zero, which is `floor` for `x ≥ 0`). -/
def truncScale1000 (x : ℚ) : Nat := (⌊x * 1000⌋).toNat

/-- Models the Python format `f"{n:0{width}d}"` for `n ≥ 0`: zero-pad the
decimal representation to a minimum width. -/
def padNum (width n : Nat) : String :=
  String.mk (List.replicate (width - (decDigitsF (n + 1) n).length) '0' ++
    decDigitsF (n + 1) n)

/-- `compute_control_flow_signature` from `fingerprint.py`. -/
def compute_control_flow_signature (jump_count jumpdest_count : Nat)
    (branch_density : ℚ) (call_count : Nat) (has_selfdestruct : Bool) : String :=
  "J" ++ padNum 4 jump_count ++ "D" ++ padNum 4 jumpdest_count ++
    "B" ++ padNum 4 (truncScale1000 branch_density) ++
    "C" ++ padNum 3 call_count ++ "S" ++ (if has_selfdestruct then "1" else "0")

/-- `compute_shape_signature` from `fingerprint.py`. -/
def compute_shape_signature (opcode_count unique_opcodes : Nat)
    ( unique_ratio : ℚ) : String :=
  "O" ++ padNum 6 opcode_count ++ "U" ++ padNum 3 unique_opcodes ++
    "R" ++ padNum 4 (truncScale1000 unique_ratio)

/-- `ContractFingerprint` from `fingerprint.py`.  Field order follows the
source; the n-gram maps are insertion-ordered association lists and the two
density/ratio floats are exact rationals. -/
structure ContractFingerprint where
  address : String
  trigram_hash : String
  quadgram_hash : String
  pentagram_hash : String
  trigrams : List (String × Nat)
  quadgrams : List (String × Nat)
  jump_count : Nat
  jumpdest_count : Nat
  branch_density : ℚ
  sstore_count : Nat
  sload_count : Nat
  call_count : Nat
  has_selfdestruct : Bool
  has_delegatecall : Bool
  opcode_count : Nat
  unique_opcodes : Nat
  unique_ratio : ℚ
  estimated_loops : Nat
  control_flow_signature : String
  shape_signature : String
deriving DecidableEq, Repr

/-- `generate_fingerprint` from `fingerprint.py`.  The anonymous
constructor lists the fields in declaration order.  `len(set(opcodes))` is
modelled by `List.dedup`. -/
def generate_fingerprint (address : String) (opcodes : List String) :
    ContractFingerprint :=
  if opcodes = [] then
    ⟨address, "empty", "empty", "empty", [], [], 0, 0, 0, 0, 0, 0, false,
      false, 0, 0, 0, 0, "J0000D0000B0000C000S0", "O000000U000R0000"⟩
  else
    let trigrams := generate_ngrams opcodes 3
    let quadgrams := generate_ngrams opcodes 4
    let pentagrams := generate_ngrams opcodes 5
    let jump_count := opcodes.count "JUMP" + opcodes.count "JUMPI"
    let jumpdest_count := opcodes.count "JUMPDEST"
    let jumpi_count := opcodes.count "JUMPI"
    let branch_density : ℚ :=
      if opcodes ≠ [] then (jumpi_count : ℚ) / (opcodes.length : ℚ) else 0
    let sstore_count := opcodes.count "SSTORE"
    let sload_count := opcodes.count "SLOAD"
    let call_count := count_opcodes_by_type opcodes CALL_OPCODES
    let has_selfdestruct := opcodes.contains "SELFDESTRUCT"
    let has_delegatecall := opcodes.contains "DELEGATECALL"
    let opcode_count := opcodes.length
    let unique_opcodes := opcodes.dedup.length
    let uratio : ℚ :=
      if opcode_count ≠ 0 then (unique_opcodes : ℚ) / (opcode_count : ℚ) else 0
    let estimated_loops := detect_loops opcodes
    ⟨address, hash_ngrams trigrams, hash_ngrams quadgrams,
      hash_ngrams pentagrams, trigrams, quadgrams, jump_count,
      jumpdest_count, branch_density, sstore_count, sload_count, call_count,
      has_selfdestruct, has_delegatecall, opcode_count, unique_opcodes,
      uratio, estimated_loops,
      compute_control_flow_signature jump_count jumpdest_count
        branch_density call_count has_selfdestruct,
      compute_shape_signature opcode_count unique_opcodes uratio⟩

/-- One input record of `process_contracts` (`main.py`): a Python dict that
may lack the `address` or `runtime_bytecode` keys. -/
structure ContractRecord where
  address : Option String
  runtime_bytecode : Option String
deriving DecidableEq, Repr

/-- `process_contracts` from `main.py` (the `verbose` printing dropped).
`contract["address"]` raises `KeyError` when the key is absent, modelled by
`Except.error`; `contract.get("runtime_bytecode", "")` defaults to the
empty string.  Alongside the returned fingerprints the embedding also
returns the internal `errors` list that the source accumulates for skipped
records.  The source's `try`/`except` body never raises: `parse_bytecode`
catches the only exception (`ValueError` from `bytes.fromhex`) itself and
`generate_fingerprint` is total. -/
def process_contracts : List ContractRecord →
    Except String (List ContractFingerprint × List String)
  | [] => Except.ok ([], [])
  | contract :: rest =>
    match contract.address with
    | none => Except.error "KeyError: address"
    | some address =>
      let bytecode := contract.runtime_bytecode.getD ""
      if bytecode = "" ∨ bytecode = "0x" then
        match process_contracts rest with
        | Except.ok r => Except.ok (r.1, ("Empty bytecode for " ++ address) :: r.2)
        | Except.error e => Except.error e
      else
        let opcodes := get_opcode_sequence bytecode
        if opcodes = [] then
          match process_contracts rest with
          | Except.ok r =>
            Except.ok (r.1, ("No opcodes parsed for " ++ address) :: r.2)
          | Except.error e => Except.error e
        else
          match process_contracts rest with
          | Except.ok r =>
            Except.ok (generate_fingerprint address opcodes :: r.1, r.2)
          | Except.error e => Except.error e

/-- Characterization of one record's outcome in `process_contracts`
(`main.py`): `none` when the record is skipped (absent identifier aside,
which aborts instead: missing/empty bytecode, or a bytecode from which no
opcodes parse), otherwise the fingerprint the batch keeps for it. -/
def processableFingerprint (contract : ContractRecord) : Option ContractFingerprint :=
  match contract.address with
  | none => none
  | some address =>
    let bytecode := contract.runtime_bytecode.getD ""
    if bytecode = "" ∨ bytecode = "0x" then none
    else
      let opcodes := get_opcode_sequence bytecode
      if opcodes = [] then none
      else some (generate_fingerprint address opcodes)

/-- The decode loop returns nothing once the cursor reaches the end of the
executable region, whatever the fuel. -/
theorem parseLoopF_stop (fuel : Nat) (bs : List Nat) (ce pos : Nat)
    (h : ¬ pos < ce) : parseLoopF fuel bs ce pos = ([], [], []) := by
  cases fuel with
  | zero => rfl
  | succ k => simp only [parseLoopF, if_neg h]

/-- Fuel irrelevance for the decode loop: any fuel at least
`ce - pos` gives the same result. -/
theorem parseLoopF_fuel (f1 : Nat) : ∀ (f2 : Nat) (bs : List Nat) (ce pos : Nat),
    ce - pos ≤ f1 → ce - pos ≤ f2 →
    parseLoopF f1 bs ce pos = parseLoopF f2 bs ce pos := by
  induction f1 with
  | zero =>
    intro f2 bs ce pos h1 _
    have hstop : ¬ pos < ce := by omega
    rw [parseLoopF_stop 0 bs ce pos hstop, parseLoopF_stop f2 bs ce pos hstop]
  | succ k ih =>
    intro f2 bs ce pos h1 h2
    by_cases hlt : pos < ce
    · cases f2 with
      | zero => omega
      | succ k2 =>
        simp only [parseLoopF, if_pos hlt]
        split
        · rfl
        · have hrec := ih k2 bs ce (pos + 1 + (get_opcode (bs.getD pos 0)).2)
            (by omega) (by omega)
          rw [hrec]
    · rw [parseLoopF_stop (k + 1) bs ce pos hlt, parseLoopF_stop f2 bs ce pos hlt]

/-- Single-step unfolding of the decode loop. -/
theorem parseLoop_step (bs : List Nat) (ce pos : Nat) (h : pos < ce) :
    parseLoop bs ce pos =
      (let mo := get_opcode (bs.getD pos 0)
       if pos + 1 + mo.2 > ce ∧ 0 < mo.2 then
         ([mo.1], [normalize_push_opcode mo.1],
           ["PUSH operand extends past code end at position " ++ decRepr pos])
       else
         let rest := parseLoop bs ce (pos + 1 + mo.2)
         (mo.1 :: rest.1, normalize_push_opcode mo.1 :: rest.2.1, rest.2.2)) := by
  unfold parseLoop
  obtain ⟨k, hk⟩ : ∃ k, ce - pos = k + 1 := ⟨ce - pos - 1, by omega⟩
  rw [hk]
  simp only [parseLoopF, if_pos h]
  split
  · rfl
  · have := parseLoopF_fuel k (ce - (pos + 1 + (get_opcode (bs.getD pos 0)).2)) bs ce
      (pos + 1 + (get_opcode (bs.getD pos 0)).2) (by omega) (by omega)
    rw [this]

/-- The decode loop past the executable region is empty. -/
theorem parseLoop_stop (bs : List Nat) (ce pos : Nat) (h : ¬ pos < ce) :
    parseLoop bs ce pos = ([], [], []) :=
  parseLoopF_stop _ bs ce pos h

/-- The canonical stream of the decode loop is the push-collapse of its raw
stream, position by position. -/
theorem parseLoopF_map (fuel : Nat) : ∀ (bs : List Nat) (ce pos : Nat),
    (parseLoopF fuel bs ce pos).2.1 =
      (parseLoopF fuel bs ce pos).1.map normalize_push_opcode := by
  induction fuel with
  | zero => intro bs ce pos; rfl
  | succ k ih =>
    intro bs ce pos
    simp only [parseLoopF]
    split
    · split
      · rfl
      · simp only [List.map_cons]
        rw [ih]
    · rfl

set_option maxRecDepth 100000 in
/-- `decide` helper: no synthetic `UNKNOWN_<hex>` mnemonic is a push
mnemonic. -/
theorem unknown_not_push : ∀ b : Nat, b < 256 →
    is_push_opcode ("UNKNOWN_" ++ byteToHex b) = false := by decide

/-- Reading an index below the truncation point is unaffected by the
truncation. -/
theorem getD_take_of_lt (l : List Nat) (n i : Nat) (h : i < n) :
    (l.take n).getD i 0 = l.getD i 0 := by
  rw [List.getD_eq_getElem?_getD, List.getD_eq_getElem?_getD, List.getElem?_take, if_pos h]

/-- The decode loop reads only bytes below `ce`: truncating the input at
the end of the executable region does not change the result. -/
theorem parseLoopF_take (fuel : Nat) : ∀ (bs : List Nat) (ce pos : Nat),
    parseLoopF fuel bs ce pos = parseLoopF fuel (bs.take ce) ce pos := by
  induction fuel with
  | zero => intro bs ce pos; rfl
  | succ k ih =>
    intro bs ce pos
    by_cases hlt : pos < ce
    · simp only [parseLoopF, if_pos hlt, getD_take_of_lt bs ce pos hlt]
      split
      · rfl
      · rw [ih]
    · simp only [parseLoopF, if_neg hlt]

/-- C2: `parse_bytecode "0x6060604052"` detects no metadata, returns the
canonical stream `PUSH PUSH MSTORE`, and the raw stream keeps the
width-specific push mnemonics `PUSH1 PUSH1 MSTORE`. -/
theorem c2_scenario_6060604052 :
    (parse_bytecode "0x6060604052" true).opcodes = ["PUSH", "PUSH", "MSTORE"] ∧
    (parse_bytecode "0x6060604052" true).raw_opcodes = ["PUSH1", "PUSH1", "MSTORE"] ∧
    (parse_bytecode "0x6060604052" true).has_metadata = false :=
  ⟨by decide, by decide, by decide⟩

/-- C3 (amended): a byte outside the opcode table decodes to the synthetic
mnemonic `UNKNOWN_<hex>` with zero operand length, decoding continues with
the remaining bytes rather than aborting, and the step leaves the recorded
warnings unchanged — no decode warning is recorded for an unknown byte. -/
theorem c3_unknown_byte_step (bs : List Nat) (ce pos : Nat)
    (hpos : pos < ce) (hbyte : bs.getD pos 0 < 256)
    (hnone : OPCODES (bs.getD pos 0) = none) :
    parseLoop bs ce pos =
      (("UNKNOWN_" ++ byteToHex (bs.getD pos 0)) :: (parseLoop bs ce (pos + 1)).1,
       ("UNKNOWN_" ++ byteToHex (bs.getD pos 0)) :: (parseLoop bs ce (pos + 1)).2.1,
       (parseLoop bs ce (pos + 1)).2.2) := by
  have hop : get_opcode (bs.getD pos 0) = ("UNKNOWN_" ++ byteToHex (bs.getD pos 0), 0) := by
    unfold get_opcode
    rw [hnone]
  have hnorm : normalize_push_opcode ("UNKNOWN_" ++ byteToHex (bs.getD pos 0)) =
      "UNKNOWN_" ++ byteToHex (bs.getD pos 0) := by
    unfold normalize_push_opcode
    rw [unknown_not_push (bs.getD pos 0) hbyte, if_neg (by simp)]
  rw [parseLoop_step bs ce pos hpos]
  simp only [hop, hnorm, Nat.add_zero, Nat.lt_irrefl, and_false, if_false]

/-- C3 counterexample: the claim also asserts that a decode warning is
recorded for the unknown byte; parsing `"0x0c"` (byte `0x0c` is not in the
table) yields the synthetic mnemonic but an empty `parse_errors` list. -/
theorem c3_unknown_byte_no_warning_counterexample :
    OPCODES 0x0C = none ∧
    (parse_bytecode "0x0c" true).raw_opcodes = ["UNKNOWN_0C"] ∧
    (parse_bytecode "0x0c" true).parse_errors = [] :=
  ⟨by decide, by decide, by decide⟩

/-- C3 witness: the amended step theorem applied to the single unknown byte
`0x0c`. -/
theorem c3_unknown_byte_witness :
    (0 : Nat) < 1 ∧ [(0x0C : Nat)].getD 0 0 < 256 ∧ OPCODES ([(0x0C : Nat)].getD 0 0) = none ∧
    parseLoop [0x0C] 1 0 =
      (("UNKNOWN_" ++ byteToHex ([(0x0C : Nat)].getD 0 0)) :: (parseLoop [0x0C] 1 1).1,
       ("UNKNOWN_" ++ byteToHex ([(0x0C : Nat)].getD 0 0)) :: (parseLoop [0x0C] 1 1).2.1,
       (parseLoop [0x0C] 1 1).2.2) :=
  ⟨by decide, by decide, by decide,
    c3_unknown_byte_step [0x0C] 1 0 (by decide) (by decide) (by decide)⟩

/-- C4: when a push instruction's declared operand would extend past the
end of the executable region, the decode loop appends that instruction,
records exactly one parse error naming the instruction's position, and
stops there (the partial result); moreover the loop never reads a byte at
or beyond `ce`, so decoding never indexes past the executable region. -/
theorem c4_truncated_push_stops (bs : List Nat) (ce pos : Nat)
    (hpos : pos < ce) (hpush : 0 < (get_opcode (bs.getD pos 0)).2)
    (hpast : ce < pos + 1 + (get_opcode (bs.getD pos 0)).2) :
    parseLoop bs ce pos =
      ([(get_opcode (bs.getD pos 0)).1],
       [normalize_push_opcode (get_opcode (bs.getD pos 0)).1],
       ["PUSH operand extends past code end at position " ++ decRepr pos]) ∧
    parseLoop bs ce pos = parseLoop (bs.take ce) ce pos := by
  constructor
  · rw [parseLoop_step bs ce pos hpos]
    simp only [if_pos (And.intro hpast hpush)]
  · exact parseLoopF_take _ bs ce pos

/-- C4 witness: a `PUSH2` whose two operand bytes are cut off by the end of
the region (`ce = 2` leaves a single operand byte). -/
theorem c4_truncated_push_witness :
    (0 : Nat) < 2 ∧ 0 < (get_opcode ([0x61, 0x00].getD 0 0)).2 ∧
    (2 : Nat) < 0 + 1 + (get_opcode ([0x61, 0x00].getD 0 0)).2 ∧
    parseLoop [0x61, 0x00] 2 0 =
      ([(get_opcode ([0x61, 0x00].getD 0 0)).1],
       [normalize_push_opcode (get_opcode ([0x61, 0x00].getD 0 0)).1],
       ["PUSH operand extends past code end at position " ++ decRepr 0]) ∧
    parseLoop [0x61, 0x00] 2 0 = parseLoop ([0x61, 0x00].take 2) 2 0 :=
  ⟨by decide, by decide, by decide,
    c4_truncated_push_stops [0x61, 0x00] 2 0 (by decide) (by decide) (by decide)⟩

/-- A list's last element (when present) is a member of the list. -/
theorem mem_of_getLast?_eq {α : Type} : ∀ (l : List α) (a : α),
    l.getLast? = some a → a ∈ l := by
  intro l
  induction l with
  | nil => intro a h; simp [List.getLast?] at h
  | cons x xs ih =>
    intro a h
    cases xs with
    | nil =>
      simp [List.getLast?] at h
      simp [h]
    | cons y ys =>
      rw [List.getLast?_cons_cons] at h
      exact List.mem_cons_of_mem x (ih a h)

/-- What a successful `rfind` guarantees: the pattern occurs at the
returned index, which lies within the list. -/
theorem rfindBytes_spec (pat l : List Nat) (i : Nat)
    (h : rfindBytes pat l = some i) :
    pat.isPrefixOf (l.drop i) = true ∧ i ≤ l.length := by
  have hmem := mem_of_getLast?_eq _ _ h
  rw [List.mem_filter] at hmem
  obtain ⟨hr, hp⟩ := hmem
  rw [List.mem_range] at hr
  exact ⟨hp, by omega⟩

/-- C5: `detect_metadata_offset` returns either `none` or an offset
strictly between 0 and the input length, so stripping metadata (and the
decode loop bounded by it) stays inside the input. -/
theorem c5_metadata_offset_bounds (bs : List Nat) (off : Nat)
    (h : detect_metadata_offset bs = some off) : 0 < off ∧ off < bs.length := by
  unfold detect_metadata_offset at h
  split at h
  · exact absurd h (by simp)
  · rename_i hlen
    simp only [] at h
    split at h
    · rename_i o hcv
      rw [Option.some_inj] at h
      subst h
      split at hcv
      · rename_i hc1
        split at hcv
        · rename_i hc2
          split at hcv
          · rw [Option.some_inj] at hcv
            subst hcv
            omega
          · exact absurd hcv (by simp)
        · exact absurd hcv (by simp)
      · exact absurd hcv (by simp)
    · split at h
      · split at h
        · rename_i idx hidx
          have hspec := rfindBytes_spec bzzrMarker bs idx hidx
          have hpre : bzzrMarker <+: bs.drop idx := by
            rw [← List.isPrefixOf_iff_prefix]
            exact hspec.1
          have hlen4 : bzzrMarker.length ≤ (bs.drop idx).length := hpre.length_le
          rw [List.length_drop] at hlen4
          simp only [bzzrMarker, List.length_cons, List.length_nil] at hlen4
          split at h
          · rw [Option.some_inj] at h
            rename_i hgt2
            omega
          · exact absurd h (by simp)
        · exact absurd h (by simp)
      · exact absurd h (by simp)

/-- C5 witness: a 43-byte input whose CBOR length field and marker byte
place the metadata at offset 1. -/
theorem c5_metadata_offset_witness :
    detect_metadata_offset (0x60 :: 0xA1 :: List.replicate 39 0 ++ [0x00, 0x28]) = some 1 ∧
    (0 < 1 ∧ 1 < (0x60 :: 0xA1 :: List.replicate 39 0 ++ [0x00, 0x28] : List Nat).length) :=
  ⟨by decide,
    c5_metadata_offset_bounds (0x60 :: 0xA1 :: List.replicate 39 0 ++ [0x00, 0x28]) 1 (by decide)⟩

/-- C6: normalizing `"0x"` yields an empty instruction stream, and the
fingerprint of an empty stream is the fully zeroed `ContractFingerprint`
(counts 0, ratios 0, booleans false, `"empty"` hashes) with the canonical
all-zero signatures — never an absent value. -/
theorem c6_empty_fingerprint : ∀ address : String,
    (parse_bytecode "0x" true).opcodes = [] ∧
    generate_fingerprint address [] =
      ⟨address, "empty", "empty", "empty", [], [], 0, 0, 0, 0, 0, 0, false,
        false, 0, 0, 0, 0, "J0000D0000B0000C000S0", "O000000U000R0000"⟩ := by
  intro address
  exact ⟨by decide, rfl⟩

/-- In every branch of `parse_bytecode` the canonical stream is the
push-collapse image of the raw stream, and `opcode_count` is the canonical
stream's length. -/
theorem parse_bytecode_norm (s : String) (sm : Bool) :
    (parse_bytecode s sm).opcodes = (parse_bytecode s sm).raw_opcodes.map normalize_push_opcode ∧
    (parse_bytecode s sm).opcode_count = (parse_bytecode s sm).opcodes.length := by
  by_cases hempty : strip_0x_prefix s = ""
  · simp only [parse_bytecode, if_pos hempty]
    exact ⟨rfl, rfl⟩
  · simp only [parse_bytecode, if_neg hempty]
    cases hb : bytesFromHex ( strip_0x_prefix s).data with
    | none => exact ⟨rfl, rfl⟩
    | some bytecode_bytes =>
      exact ⟨parseLoopF_map _ _ _ _, rfl⟩

/-- C10: for every hex input, the canonical and raw streams of
`parse_bytecode` have equal length, `opcode_count` equals that length, and
position by position the canonical stream is `"PUSH"` exactly where the
raw mnemonic is push-family and the raw mnemonic itself otherwise. -/
theorem c10_stream_invariants : ∀ bytecode : String,
    (parse_bytecode bytecode true).opcodes.length =
      (parse_bytecode bytecode true).raw_opcodes.length ∧
    (parse_bytecode bytecode true).opcode_count =
      (parse_bytecode bytecode true).opcodes.length ∧
    ∀ i, i < (parse_bytecode bytecode true).opcodes.length →
      (parse_bytecode bytecode true).opcodes.getD i "" =
        (if is_push_opcode ((parse_bytecode bytecode true).raw_opcodes.getD i "")
         then "PUSH" else (parse_bytecode bytecode true).raw_opcodes.getD i "") := by
  intro bytecode
  obtain ⟨hmap, hcnt⟩ := parse_bytecode_norm bytecode true
  refine ⟨by rw [hmap, List.length_map], hcnt, ?_⟩
  intro i hi
  rw [hmap] at hi ⊢
  rw [List.length_map] at hi
  rw [List.getD_eq_getElem?_getD, List.getD_eq_getElem?_getD, List.getElem?_map,
    List.getElem?_eq_getElem hi]
  simp only [Option.map_some', Option.getD_some]
  rfl

/-- C10 witness: the invariant instantiated at the C2 scenario bytecode and
index 0 (a `PUSH1`, collapsed to `PUSH`). -/
theorem c10_stream_invariants_witness :
    (parse_bytecode "0x6060604052" true).opcodes.length =
      (parse_bytecode "0x6060604052" true).raw_opcodes.length ∧
    (0 : Nat) < (parse_bytecode "0x6060604052" true).opcodes.length ∧
    (parse_bytecode "0x6060604052" true).opcodes.getD 0 "" =
      (if is_push_opcode ((parse_bytecode "0x6060604052" true).raw_opcodes.getD 0 "")
       then "PUSH" else (parse_bytecode "0x6060604052" true).raw_opcodes.getD 0 "") :=
  ⟨(c10_stream_invariants "0x6060604052").1, by decide,
    (c10_stream_invariants "0x6060604052").2.2 0 (by decide)⟩

/-- The tuple order used by Python `sorted` on (ngram, count) pairs is
transitive. -/
theorem pairLeB_trans : ∀ a b c : String × Nat,
    pairLeB a b = true → pairLeB b c = true → pairLeB a c = true := by
  intro a b c hab hbc
  simp only [pairLeB, decide_eq_true_eq] at hab hbc ⊢
  rcases hab with h1 | ⟨h1, h2⟩
  · rcases hbc with h3 | ⟨h3, h4⟩
    · exact Or.inl (lt_trans h1 h3)
    · exact Or.inl (h3 ▸ h1)
  · rcases hbc with h3 | ⟨h3, h4⟩
    · exact Or.inl (h1 ▸ h3)
    · exact Or.inr ⟨h1.trans h3, le_trans h2 h4⟩

/-- The tuple order used by Python `sorted` is total. -/
theorem pairLeB_total : ∀ a b : String × Nat,
    (pairLeB a b || pairLeB b a) = true := by
  intro a b
  simp only [pairLeB, Bool.or_eq_true, decide_eq_true_eq]
  rcases lt_trichotomy a.1 b.1 with h | h | h
  · exact Or.inl (Or.inl h)
  · rcases Nat.le_total a.2 b.2 with h2 | h2
    · exact Or.inl (Or.inr ⟨h, h2⟩)
    · exact Or.inr (Or.inr ⟨h.symm, h2⟩)
  · exact Or.inr (Or.inl h)

/-- The tuple order used by Python `sorted` is antisymmetric. -/
theorem pairLeB_antisymm : ∀ a b : String × Nat,
    pairLeB a b = true → pairLeB b a = true → a = b := by
  intro a b hab hba
  simp only [pairLeB, decide_eq_true_eq] at hab hba
  rcases hab with h1 | ⟨h1, h2⟩
  · rcases hba with h3 | ⟨h3, h4⟩
    · exact absurd h3 (lt_asymm h1)
    · exact absurd (h3 ▸ h1) (lt_irrefl b.1)
  · rcases hba with h3 | ⟨h3, h4⟩
    · exact absurd (h1 ▸ h3) (lt_irrefl b.1)
    · exact Prod.ext h1 (Nat.le_antisymm h2 h4)

/-- C7: `hash_ngrams` depends only on the multiset of (ngram, count)
pairs — maps holding the same counts, in whatever construction order,
hash to the same digest, because the pairs are sorted before canonical
serialization and hashing. -/
theorem c7_hash_ngrams_perm : ∀ l1 l2 : List (String × Nat), l1.Perm l2 →
    hash_ngrams l1 = hash_ngrams l2 := by
  intro l1 l2 hperm
  by_cases h1 : l1 = []
  · subst h1
    rw [hperm.symm.eq_nil]
  · have h2 : l2 ≠ [] := fun h2eq => h1 (h2eq ▸ hperm).eq_nil
    unfold hash_ngrams
    rw [if_neg h1, if_neg h2]
    have hsort : l1.mergeSort pairLeB = l2.mergeSort pairLeB := by
      refine @List.eq_of_perm_of_sorted _ _ ⟨pairLeB_antisymm⟩ _ _ ?_ ?_ ?_
      · exact (List.mergeSort_perm l1 pairLeB).trans
          (hperm.trans (List.mergeSort_perm l2 pairLeB).symm)
      · exact List.sorted_mergeSort pairLeB_trans pairLeB_total l1
      · exact List.sorted_mergeSort pairLeB_trans pairLeB_total l2
    rw [hsort]

/-- C7 witness: two two-entry maps holding the same counts in opposite
insertion order hash identically. -/
theorem c7_hash_ngrams_witness :
    ([("PUSH|PUSH|MSTORE", 2), ("A|B|C", 1)] : List (String × Nat)).Perm
      [("A|B|C", 1), ("PUSH|PUSH|MSTORE", 2)] ∧
    hash_ngrams [("PUSH|PUSH|MSTORE", 2), ("A|B|C", 1)] =
      hash_ngrams [("A|B|C", 1), ("PUSH|PUSH|MSTORE", 2)] :=
  ⟨by decide, c7_hash_ngrams_perm _ _ (by decide)⟩

/-- C9 (amended): when every record carries an identifier,
`process_contracts` skips each record whose bytecode is missing, empty, or
yields no opcodes, counts it as one reported error, continues with the
rest, and returns exactly the fingerprints of the processable records —
such per-record failures never abort the batch. -/
theorem c9_process_contracts_skips : ∀ contracts : List ContractRecord,
    (∀ c ∈ contracts, c.address ≠ none) →
    ∃ errs : List String,
      process_contracts contracts =
        Except.ok (contracts.filterMap processableFingerprint, errs) ∧
      errs.length = contracts.countP (fun c => (processableFingerprint c).isNone) := by
  intro contracts
  induction contracts with
  | nil => intro _; exact ⟨[], rfl, rfl⟩
  | cons c rest ih =>
    intro hall
    obtain ⟨errs, hok, hlen⟩ := ih (fun x hx => hall x (List.mem_cons_of_mem c hx))
    have haddr : c.address ≠ none := hall c (List.mem_cons_self c rest)
    obtain ⟨address, haddr_eq⟩ := Option.ne_none_iff_exists'.mp haddr
    by_cases hskip : c.runtime_bytecode.getD "" = "" ∨ c.runtime_bytecode.getD "" = "0x"
    · have hpf : processableFingerprint c = none := by
        simp only [processableFingerprint, haddr_eq, if_pos hskip]
      refine ⟨("Empty bytecode for " ++ address) :: errs, ?_, ?_⟩
      · simp only [process_contracts, haddr_eq, if_pos hskip, hok,
          List.filterMap_cons, hpf]
      · simp only [List.length_cons, List.countP_cons, hpf, Option.isNone_none,
          hlen, if_true]
    · by_cases hops : get_opcode_sequence (c.runtime_bytecode.getD "") = []
      · have hpf : processableFingerprint c = none := by
          simp only [processableFingerprint, haddr_eq, if_neg hskip, if_pos hops]
        refine ⟨("No opcodes parsed for " ++ address) :: errs, ?_, ?_⟩
        · simp only [process_contracts, haddr_eq, if_neg hskip, if_pos hops, hok,
            List.filterMap_cons, hpf]
        · simp only [List.length_cons, List.countP_cons, hpf, Option.isNone_none,
            hlen, if_true]
      · have hpf : processableFingerprint c =
            some (generate_fingerprint address
              (get_opcode_sequence (c.runtime_bytecode.getD ""))) := by
          simp only [processableFingerprint, haddr_eq, if_neg hskip, if_neg hops]
        refine ⟨errs, ?_, ?_⟩
        · simp only [process_contracts, haddr_eq, if_neg hskip, if_neg hops, hok,
            List.filterMap_cons, hpf]
        · simp only [List.countP_cons, hpf, Option.isNone_some, hlen, if_false,
            Bool.false_eq_true, Nat.add_zero]

/-- C9 counterexample: a record whose identifier is missing is not skipped
and counted — it aborts the whole batch with a `KeyError`, even though the
following record is perfectly processable. -/
theorem c9_missing_address_counterexample :
    process_contracts
        [⟨none, some "0x6060604052"⟩, ⟨some "b", some "0x6060604052"⟩] =
      Except.error "KeyError: address" ∧
    (processableFingerprint ⟨some "b", some "0x6060604052"⟩).isSome = true :=
  ⟨rfl, by decide⟩

/-- C9 witness: a two-record batch (one processable record, one with a
`None` bytecode) on which the amended theorem applies. -/
theorem c9_process_contracts_witness :
    (∀ c ∈ [(⟨some "a", some "0x6060604052"⟩ : ContractRecord), ⟨some "b", none⟩],
      c.address ≠ none) ∧
    ∃ errs : List String,
      process_contracts [⟨some "a", some "0x6060604052"⟩, ⟨some "b", none⟩] =
        Except.ok
          ([(⟨some "a", some "0x6060604052"⟩ : ContractRecord),
            ⟨some "b", none⟩].filterMap processableFingerprint, errs) ∧
      errs.length =
        [(⟨some "a", some "0x6060604052"⟩ : ContractRecord),
          ⟨some "b", none⟩].countP (fun c => (processableFingerprint c).isNone) :=
  ⟨by decide,
    c9_process_contracts_skips [⟨some "a", some "0x6060604052"⟩, ⟨some "b", none⟩]
      (by decide)⟩

/-- Bound on the number of decimal digits: below `10 ^ k` there are at most
`k` digits. -/
theorem decDigitsF_length_le : ∀ (fuel k n : Nat), n < fuel → 1 ≤ k → n < 10 ^ k →
    (decDigitsF fuel n).length ≤ k := by
  intro fuel
  induction fuel with
  | zero => intro k n h; omega
  | succ f ih =>
    intro k n hfuel hk hpow
    by_cases h10 : n < 10
    · simp only [decDigitsF, if_pos h10, List.length_singleton]
      omega
    · simp only [decDigitsF, if_neg h10, List.length_append, List.length_singleton]
      have hk2 : 2 ≤ k := by
        by_contra hlt
        have : k = 1 := by omega
        subst this
        simp at hpow
        omega
      have hrec := ih (k - 1) (n / 10) (by omega) (by omega) ?_
      · omega
      · have h1 : 10 * 10 ^ (k - 1) = 10 ^ k := by
          rw [mul_comm, ← pow_succ]
          congr 1
          omega
        exact Nat.div_lt_of_lt_mul (by omega)

/-- A number below `10 ^ w` zero-pads to exactly `w` characters. -/
theorem padNum_length (w n : Nat) (hw : 1 ≤ w) (h : n < 10 ^ w) :
    (padNum w n).length = w := by
  have hle := decDigitsF_length_le (n + 1) w n (by omega) hw h
  simp only [padNum, String.length, String.mk, List.length_append, List.length_replicate]
  omega

/-- A ratio of at most one scales to a field value of at most 1000. -/
theorem truncScale1000_le (q : ℚ) (h1 : q ≤ 1) : truncScale1000 q ≤ 1000 := by
  unfold truncScale1000
  have hq : (q * 1000 : ℚ) ≤ 1000 := by nlinarith
  have hfl : ⌊(q * 1000 : ℚ)⌋ ≤ 1000 := by
    have := Int.floor_le_floor hq
    simpa using this
  omega

/-- The boolean field of the control-flow signature is one character. -/
theorem ite_01_length (b : Bool) : (if b = true then "1" else "0").length = 1 := by
  cases b <;> rfl

/-- C8 (amended): the control-flow signature has 21 characters and the
shape signature 16, provided each counter fits its minimum field width
(jumps ≤ 9999, jump destinations ≤ 9999, calls ≤ 999, instruction count
≤ 999999, distinct mnemonics ≤ 999); the two density fields always fit,
being at most 1000. -/
theorem c8_signature_width_bounded : ∀ (address : String) (opcodes : List String),
    (generate_fingerprint address opcodes).jump_count ≤ 9999 →
    (generate_fingerprint address opcodes).jumpdest_count ≤ 9999 →
    (generate_fingerprint address opcodes).call_count ≤ 999 →
    (generate_fingerprint address opcodes).opcode_count ≤ 999999 →
    (generate_fingerprint address opcodes).unique_opcodes ≤ 999 →
    (generate_fingerprint address opcodes).control_flow_signature.length = 21 ∧
    (generate_fingerprint address opcodes).shape_signature.length = 16 := by
  intro address opcodes h1 h2 h3 h4 h5
  by_cases hemp : opcodes = []
  · subst hemp
    exact ⟨rfl, rfl⟩
  · simp only [generate_fingerprint, if_neg hemp] at h1 h2 h3 h4 h5 ⊢
    have hlen0 : 0 < opcodes.length := List.length_pos.mpr hemp
    have hlenne : opcodes.length ≠ 0 := by omega
    rw [if_pos hemp, if_pos hlenne]
    have hcast : (0 : ℚ) < (opcodes.length : ℚ) := by exact_mod_cast hlen0
    have hd1 : ((List.count "JUMPI" opcodes : ℚ)) / (opcodes.length : ℚ) ≤ 1 := by
      rw [div_le_one hcast]
      exact_mod_cast List.count_le_length "JUMPI" opcodes
    have hr1 : ((opcodes.dedup.length : ℚ)) / (opcodes.length : ℚ) ≤ 1 := by
      rw [div_le_one hcast]
      exact_mod_cast List.Sublist.length_le (List.dedup_sublist opcodes)
    have e1 := padNum_length 4 (List.count "JUMP" opcodes + List.count "JUMPI" opcodes)
      (by norm_num) (by norm_num; omega)
    have e2 := padNum_length 4 (List.count "JUMPDEST" opcodes) (by norm_num)
      (by norm_num; omega)
    have e3 := padNum_length 4
      (truncScale1000 ((List.count "JUMPI" opcodes : ℚ) / (opcodes.length : ℚ)))
      (by norm_num)
      (by have := truncScale1000_le _ hd1; norm_num; omega)
    have e4 := padNum_length 3 (count_opcodes_by_type opcodes CALL_OPCODES)
      (by norm_num) (by norm_num; omega)
    have e5 := padNum_length 6 opcodes.length (by norm_num) (by norm_num; omega)
    have e6 := padNum_length 3 opcodes.dedup.length (by norm_num) (by norm_num; omega)
    have e7 := padNum_length 4
      (truncScale1000 ((opcodes.dedup.length : ℚ) / (opcodes.length : ℚ)))
      (by norm_num)
      (by have := truncScale1000_le _ hr1; norm_num; omega)
    constructor
    · simp only [compute_control_flow_signature, String.length_append, e1, e2, e3, e4,
        ite_01_length]
      rfl
    · simp only [compute_shape_signature, String.length_append, e5, e6, e7]
      rfl

set_option maxRecDepth 8000 in
/-- C8 counterexample: the claim promises the 21-character control-flow
signature for every stream regardless of counter size, but a stream of
1000 external calls overflows the three-character call field (the Python
format widths are minimums, not truncations), giving 22 characters. -/
theorem c8_signature_width_counterexample :
    (generate_fingerprint "fp" (List.replicate 1000 "CALL")).control_flow_signature.length ≠ 21 := by
  have hne : (List.replicate 1000 "CALL" : List String) ≠ [] := by decide
  have hc1 : List.count "JUMP" (List.replicate 1000 "CALL") = 0 := by decide
  have hc2 : List.count "JUMPI" (List.replicate 1000 "CALL") = 0 := by decide
  have hc3 : List.count "JUMPDEST" (List.replicate 1000 "CALL") = 0 := by decide
  have hc4 : count_opcodes_by_type (List.replicate 1000 "CALL") CALL_OPCODES = 1000 := by decide
  have hc5 : (List.replicate 1000 "CALL").contains "SELFDESTRUCT" = false := by decide
  have hlen : (List.replicate 1000 "CALL" : List String).length = 1000 := by decide
  simp only [generate_fingerprint, if_neg hne, compute_control_flow_signature,
    hc1, hc2, hc3, hc4, hc5, truncScale1000, hlen]
  rw [if_pos hne]
  norm_num
  decide

/-- C8 witness: the amended width theorem applied to the one-instruction
stream `[JUMP]`, whose counters all fit their fields. -/
theorem c8_signature_width_witness :
    (generate_fingerprint "a" ["JUMP"]).jump_count ≤ 9999 ∧
    (generate_fingerprint "a" ["JUMP"]).jumpdest_count ≤ 9999 ∧
    (generate_fingerprint "a" ["JUMP"]).call_count ≤ 999 ∧
    (generate_fingerprint "a" ["JUMP"]).opcode_count ≤ 999999 ∧
    (generate_fingerprint "a" ["JUMP"]).unique_opcodes ≤ 999 ∧
    (generate_fingerprint "a" ["JUMP"]).control_flow_signature.length = 21 ∧
    (generate_fingerprint "a" ["JUMP"]).shape_signature.length = 16 :=
  ⟨by decide, by decide, by decide, by decide, by decide,
    c8_signature_width_bounded "a" ["JUMP"] (by decide) (by decide) (by decide)
      (by decide) (by decide)⟩

/-- Push-equivalent byte strings have equal length (operand widths agree
position by position). -/
theorem pushEquivF_length : ∀ (fe : Nat) (b1 b2 : List Nat),
    pushEquivF fe b1 b2 = true → b1.length = b2.length := by
  intro fe
  induction fe with
  | zero =>
    intro b1 b2 h
    cases b1 with
    | nil => cases b2 with
      | nil => rfl
      | cons h2 r2 => exact absurd h (by simp [pushEquivF])
    | cons h1 r1 => cases b2 with
      | nil => exact absurd h (by simp [pushEquivF])
      | cons h2 r2 => exact absurd h (by simp [pushEquivF])
  | succ k ih =>
    intro b1 b2 h
    cases b1 with
    | nil => cases b2 with
      | nil => rfl
      | cons h2 r2 => exact absurd h (by simp [pushEquivF])
    | cons h1 r1 => cases b2 with
      | nil => exact absurd h (by simp [pushEquivF])
      | cons h2 r2 =>
        simp only [pushEquivF, Bool.and_eq_true, decide_eq_true_eq] at h
        obtain ⟨⟨⟨hb, hw1⟩, hw2⟩, hrec⟩ := h
        have := ih _ _ hrec
        simp only [List.length_drop] at this
        simp only [List.length_cons]
        omega

/-- Decoding two push-equivalent byte strings from any common cursor
position produces identical results (raw stream, canonical stream and
errors): the decoder never looks at the operand bytes, only skips them. -/
theorem parseLoopF_pushEquiv : ∀ (fp n : Nat) (pre1 pre2 b1 b2 : List Nat) (fe : Nat),
    pushEquivF fe b1 b2 = true → pre1.length = n → pre2.length = n →
    parseLoopF fp (pre1 ++ b1) (n + b1.length) n =
      parseLoopF fp (pre2 ++ b2) (n + b2.length) n := by
  intro fp
  induction fp with
  | zero => intro n pre1 pre2 b1 b2 fe hpe hl1 hl2; rfl
  | succ k ih =>
    intro n pre1 pre2 b1 b2 fe hpe hl1 hl2
    cases b1 with
    | nil =>
      cases b2 with
      | nil =>
        rw [parseLoopF_stop (k + 1) (pre1 ++ []) _ n (by simp),
          parseLoopF_stop (k + 1) (pre2 ++ []) _ n (by simp)]
      | cons h2 r2 =>
        exact absurd hpe (by cases fe <;> simp [pushEquivF])
    | cons h1 r1 =>
      cases b2 with
      | nil => exact absurd hpe (by cases fe <;> simp [pushEquivF])
      | cons h2 r2 =>
        cases fe with
        | zero => exact absurd hpe (by simp [pushEquivF])
        | succ kf =>
          simp only [pushEquivF, Bool.and_eq_true, decide_eq_true_eq] at hpe
          obtain ⟨⟨⟨hb, hw1⟩, hw2⟩, hrec⟩ := hpe
          subst hb
          have hbyte1 : (pre1 ++ h1 :: r1).getD n 0 = h1 := by
            rw [← hl1, List.getD_append_right pre1 (h1 :: r1) 0 pre1.length
              (le_refl pre1.length)]
            simp
          have hbyte2 : (pre2 ++ h1 :: r2).getD n 0 = h1 := by
            rw [← hl2, List.getD_append_right pre2 (h1 :: r2) 0 pre2.length
              (le_refl pre2.length)]
            simp
          have hlt1 : n < n + (h1 :: r1).length := by simp
          have hlt2 : n < n + (h1 :: r2).length := by simp
          simp only [parseLoopF, if_pos hlt1, if_pos hlt2, hbyte1, hbyte2]
          have hc1 : ¬(n + 1 + (get_opcode h1).2 > n + (h1 :: r1).length ∧
              0 < (get_opcode h1).2) := by
            simp only [List.length_cons]
            omega
          have hc2 : ¬(n + 1 + (get_opcode h1).2 > n + (h1 :: r2).length ∧
              0 < (get_opcode h1).2) := by
            simp only [List.length_cons]
            omega
          rw [if_neg hc1, if_neg hc2]
          have hsplit1 : pre1 ++ h1 :: r1 =
              (pre1 ++ h1 :: r1.take (get_opcode h1).2) ++ r1.drop (get_opcode h1).2 := by
            simp [List.take_append_drop]
          have hsplit2 : pre2 ++ h1 :: r2 =
              (pre2 ++ h1 :: r2.take (get_opcode h1).2) ++ r2.drop (get_opcode h1).2 := by
            simp [List.take_append_drop]
          have hce1 : n + (h1 :: r1).length =
              (n + 1 + (get_opcode h1).2) + (r1.drop (get_opcode h1).2).length := by
            simp only [List.length_cons, List.length_drop]
            omega
          have hce2 : n + (h1 :: r2).length =
              (n + 1 + (get_opcode h1).2) + (r2.drop (get_opcode h1).2).length := by
            simp only [List.length_cons, List.length_drop]
            omega
          have hpl1 : (pre1 ++ h1 :: r1.take (get_opcode h1).2).length =
              n + 1 + (get_opcode h1).2 := by
            simp only [List.length_append, List.length_cons, List.length_take]
            omega
          have hpl2 : (pre2 ++ h1 :: r2.take (get_opcode h1).2).length =
              n + 1 + (get_opcode h1).2 := by
            simp only [List.length_append, List.length_cons, List.length_take]
            omega
          have hkey := ih (n + 1 + (get_opcode h1).2)
            (pre1 ++ h1 :: r1.take (get_opcode h1).2)
            (pre2 ++ h1 :: r2.take (get_opcode h1).2)
            (r1.drop (get_opcode h1).2) (r2.drop (get_opcode h1).2) kf hrec hpl1 hpl2
          rw [hsplit1, hce1, hsplit2, hce2]
          rw [hkey]

/-- With metadata stripping disabled, the canonical stream of
`parse_bytecode` is the decode loop run over the whole decoded byte
string. -/
theorem parse_opcodes_decode (s : String) (b : List Nat)
    (hb : bytesFromHex ( strip_0x_prefix s).data = some b) :
    (parse_bytecode s false).opcodes = (parseLoop b b.length 0).2.1 := by
  by_cases hempty : strip_0x_prefix s = ""
  · rw [hempty] at hb
    have hbnil : b = [] := by
      simp only [bytesFromHex] at hb
      exact (Option.some_inj.mp hb).symm
    subst hbnil
    simp only [parse_bytecode, if_pos hempty]
    rfl
  · simp only [parse_bytecode, if_neg hempty]
    rw [hb]
    simp only [if_false, Bool.false_eq_true, Option.getD_none]

/-- C1 (amended): with metadata stripping disabled, two hex strings that
decode to push-equivalent byte strings (same opcode at every instruction
position, same operand widths, differing only in push operand bytes)
normalize to identical canonical instruction streams. -/
theorem c1_push_collapse_no_metadata : ∀ (s1 s2 : String) (b1 b2 : List Nat),
    bytesFromHex ( strip_0x_prefix s1).data = some b1 →
    bytesFromHex ( strip_0x_prefix s2).data = some b2 →
    pushEquivB b1 b2 = true →
    (parse_bytecode s1 false).opcodes = (parse_bytecode s2 false).opcodes := by
  intro s1 s2 b1 b2 h1 h2 hpe
  rw [parse_opcodes_decode s1 b1 h1, parse_opcodes_decode s2 b2 h2]
  have hlen := pushEquivF_length b1.length b1 b2 hpe
  have key := parseLoopF_pushEquiv b1.length 0 [] [] b1 b2 b1.length hpe rfl rfl
  simp only [List.nil_append, Nat.zero_add] at key
  unfold parseLoop
  simp only [Nat.sub_zero]
  rw [key]
  rw [parseLoopF_fuel b1.length b2.length b2 b2.length 0 (by omega) (by omega)]

/-- C1 counterexample: with the default metadata stripping, two 43-byte
strings differing only in the single operand byte of their leading `PUSH1`
decode differently — the `0xa1` operand byte makes the CBOR metadata
heuristic fire on one side only, truncating its stream to a single
instruction. -/
theorem c1_push_collapse_counterexample :
    bytesFromHex
        ( strip_0x_prefix ("0x60a1" ++ String.mk (List.replicate 78 '0') ++ "0028")).data =
      some (0x60 :: 0xA1 :: List.replicate 39 0 ++ [0x00, 0x28]) ∧
    bytesFromHex
        ( strip_0x_prefix ("0x6000" ++ String.mk (List.replicate 78 '0') ++ "0028")).data =
      some (0x60 :: 0x00 :: List.replicate 39 0 ++ [0x00, 0x28]) ∧
    pushEquivB (0x60 :: 0xA1 :: List.replicate 39 0 ++ [0x00, 0x28])
      (0x60 :: 0x00 :: List.replicate 39 0 ++ [0x00, 0x28]) = true ∧
    (parse_bytecode ("0x60a1" ++ String.mk (List.replicate 78 '0') ++ "0028") true).opcodes ≠
      (parse_bytecode ("0x6000" ++ String.mk (List.replicate 78 '0') ++ "0028") true).opcodes :=
  ⟨by decide, by decide, by decide, by decide⟩

/-- C1 witness: the amended theorem applied to `PUSH1` instructions with
different operand bytes. -/
theorem c1_push_collapse_witness :
    bytesFromHex ( strip_0x_prefix "0x6001").data = some [0x60, 0x01] ∧
    bytesFromHex ( strip_0x_prefix "0x60ff").data = some [0x60, 0xFF] ∧
    pushEquivB [0x60, 0x01] [0x60, 0xFF] = true ∧
    (parse_bytecode "0x6001" false).opcodes = (parse_bytecode "0x60ff" false).opcodes :=
  ⟨by decide, by decide, by decide,
    c1_push_collapse_no_metadata "0x6001" "0x60ff" [0x60, 0x01] [0x60, 0xFF]
      (by decide) (by decide) (by decide)⟩


